import Mathlib

/-!  Verification of the trunc repository (a scraping client for the Russian
National Corpus).  The definitions below are a shallow embedding of the code in
src/trunc/util.py, src/trunc/rnc.py and src/trunc/web.py: Python strings are
modelled as Lean `String` (byte strings over their code points), Python ints as
`Int`/`Nat`, Python floats holding small year values and their halves as exact
rationals `ℚ`, raised exceptions as `Option`/`Except` failure values, and the
two external collaborators (the HTTP fetch and the percent-decoding that
depends on the fetched page's detected character encoding) as explicit function
parameters.  -/

/-! ## trunc/util.py -/

/-- ASCII digit test, the meaning of the regex class `\d` and of Python's
`str.isdigit` for byte strings (both are exactly the characters 0-9). -/
def isAsciiDigit (c : Char) : Bool := 48 ≤ c.toNat && c.toNat ≤ 57

/-- Numeric value of an ASCII digit character. -/
def digitVal (c : Char) : Nat := c.toNat - 48

/-- Value of a list of ASCII digit characters read in base 10, the meaning of
Python's `int`/`float` applied to a string of digits. -/
def natOfDigitsL : List Char → Nat
  | [] => 0
  | c :: cs => digitVal c * 10 ^ cs.length + natOfDigitsL cs

/-- The characters Python's `int()` strips around a numeric literal
(`string.whitespace`). -/
def isPySpace (c : Char) : Bool :=
  c = ' ' || c = '\t' || c = '\n' || c.toNat = 11 || c.toNat = 12 || c = '\r'

/-- Model of Python's built-in `int(s)` on a byte string: optional surrounding
whitespace, an optional single sign, then a non-empty run of decimal digits;
`none` models the `ValueError` raised on any other input. -/
def pyIntOpt (s : String) : Option Int :=
  let t := ((s.data.dropWhile isPySpace).reverse.dropWhile isPySpace).reverse
  match t with
  | [] => none
  | c :: rest =>
    let p := if c = '-' then (true, rest)
             else if c = '+' then (false, rest)
             else (false, c :: rest)
    if p.2 ≠ [] ∧ p.2.all isAsciiDigit then
      some (if p.1 then -(natOfDigitsL p.2 : Int) else (natOfDigitsL p.2 : Int))
    else none

/-- The delimiter-stripping loop of `as_integer`: `for d in delims: s =
s.replace(d, '')`.  The source takes delimiter strings; its only use passes the
single-character delimiter list `[' ']`, modelled here as characters, for which
the sequence of replacements is exactly a filter. -/
def removeDelims (s : String) (delims : List Char) : String :=
  String.mk (s.data.filter (fun c => !delims.contains c))

/-- `util.as_integer` from src/trunc/util.py: strip the delimiters, then
`int(s)`, with the `except ValueError: i = 0` fallback. -/
def as_integer (s : String) (delims : List Char := [' ']) : Int :=
  match pyIntOpt (removeDelims s delims) with
  | some i => i
  | none => 0

/-- Modelled from the spec: `digits_only` (called `just_digits` by the test
suite in src/tests/test_util.py), the digit-extraction collaborator that is
absent from src/trunc/util.py: it keeps exactly the digit characters of its
input. -/
def digits_only (s : String) : String :=
  String.mk (s.data.filter (fun c => isAsciiDigit c))

/-- Modelled from the spec: the strict integer-conversion contract `to_integer`
(called `ints_from_string` by the test suite), absent from src/trunc/util.py:
strip all non-digit characters and parse the rest as an integer, failing with
an explicit "no digits present" error when no digit remains. -/
def to_integer (s : String) : Except String Int :=
  if (digits_only s).data = [] then Except.error "no digits present"
  else Except.ok (natOfDigitsL (digits_only s).data)

/-- The loop body of `util.fibonacci_number`: `a, b = b, a + b` repeated. -/
def fibonacci_loop : Nat → Nat × Nat → Nat × Nat
  | 0, p => p
  | k + 1, p => fibonacci_loop k (p.2, p.1 + p.2)

/-- `util.fibonacci_number` from src/trunc/util.py: `a, b = 1, 1`, then
`n - 1` iterations of `a, b = b, a + b` (`xrange(n - 1)` is empty for `n ≤ 1`,
exactly like truncated subtraction), returning `a`. -/
def fibonacci_number (n : Nat) : Nat := (fibonacci_loop (n - 1) (1, 1)).1

/-- The reference Fibonacci recurrence, following the spec's words:
`fib(1) = 1`, `fib(2) = 1`, `fib(n) = fib(n-1) + fib(n-2)` for `n > 2`. -/
def fibSpec : Nat → Nat
  | 0 => 1
  | 1 => 1
  | 2 => 1
  | n + 3 => fibSpec (n + 2) + fibSpec (n + 1)

/-! ## trunc/rnc.py, RNCSource (the source-citation date parser) -/

/-- Helper for the substitution `re.sub(r'\([^)]*\)', '', s)`: drop everything
up to and including the first `)` of the list, or report that no `)` exists. -/
def dropThroughClose : List Char → Option (List Char)
  | [] => none
  | c :: rest => if c = ')' then some rest else dropThroughClose rest

/-- `re.sub(r'\([^)]*\)', '', s)`, fuelled by the length of the input: each
`(` that is followed by some `)` is removed together with its span; a `(`
with no later `)` does not match the pattern and is kept. -/
def stripParensAux : Nat → List Char → List Char
  | 0, l => l
  | fuel + 1, l =>
    match l with
    | [] => []
    | c :: rest =>
      if c = '(' then
        match dropThroughClose rest with
        | some rest' => stripParensAux fuel rest'
        | none => c :: stripParensAux fuel rest
      else c :: stripParensAux fuel rest

/-- Removal of every parenthesized span, used for `bare_name`. -/
def stripParens (l : List Char) : List Char := stripParensAux l.length l

/-- Does the regex `\d{4}-\d{4}` match at the head of the list?  On success,
return the two four-digit groups; splitting the whole match on `-` in the
source yields exactly these two groups, since digits are never `-`. -/
def matchRangeAt : List Char → Option (List Char × List Char)
  | c1 :: c2 :: c3 :: c4 :: h :: c5 :: c6 :: c7 :: c8 :: _ =>
    if isAsciiDigit c1 && isAsciiDigit c2 && isAsciiDigit c3 && isAsciiDigit c4
        && (h = '-') && isAsciiDigit c5 && isAsciiDigit c6 && isAsciiDigit c7
        && isAsciiDigit c8 then
      some ([c1, c2, c3, c4], [c5, c6, c7, c8])
    else none
  | _ => none

/-- First match of `re.findall(r'\d{4}-\d{4}', s)` (the source only uses
element `[0]` of the result): scan left to right for the first position where
the pattern matches. -/
def findRange : List Char → Option (List Char × List Char)
  | [] => none
  | c :: rest =>
    match matchRangeAt (c :: rest) with
    | some r => some r
    | none => findRange rest

/-- Fuelled scan for `re.findall(r'\d{4}', s)`: a match consumes its four
characters, a non-match advances by one character.  Structural recursion on
the fuel keeps the definition kernel-reducible; fuel `l.length` always
suffices since every step consumes at least one character. -/
def findAll4Aux : Nat → List Char → List (List Char)
  | 0, _ => []
  | fuel + 1, l =>
    match l with
    | c1 :: c2 :: c3 :: c4 :: rest =>
      if isAsciiDigit c1 && isAsciiDigit c2 && isAsciiDigit c3 && isAsciiDigit c4 then
        [c1, c2, c3, c4] :: findAll4Aux fuel rest
      else findAll4Aux fuel (c2 :: c3 :: c4 :: rest)
    | _ => []

/-- `re.findall(r'\d{4}', s)`: all non-overlapping four-digit matches, scanning
left to right and resuming after each match. -/
def findAll4 (l : List Char) : List (List Char) := findAll4Aux l.length l

/-- Python's `<` on byte strings: lexicographic comparison of the code points.
-/
def pyStrLt : List Char → List Char → Bool
  | [], [] => false
  | [], _ :: _ => true
  | _ :: _, [] => false
  | a :: as, b :: bs =>
    if a.toNat < b.toNat then true
    else if b.toNat < a.toNat then false
    else pyStrLt as bs

/-- Python's `min` on a non-empty list of strings: fold keeping the earliest
strictly smaller element. -/
def pyMin (d : List Char) (ds : List (List Char)) : List Char :=
  ds.foldl (fun acc x => if pyStrLt x acc then x else acc) d

/-- One source in RNC search results, as built by `RNCSource.__init__`.  The
date attributes are Python floats holding four-digit years or their averages,
all exactly representable; they are modelled as rationals. -/
structure RNCSource where
  source_name : String
  bare_name : String
  date_begin : ℚ
  date_middle : ℚ
  date_end : ℚ
deriving DecidableEq

/-- `RNCSource.__init__` followed by its `parse_dates` call, from
src/trunc/rnc.py lines 36-103: strip parenthesized spans for `bare_name`,
default the three dates to `0.0`, then overwrite them from the first
`\d{4}-\d{4}` match if any, else from `float(min(dates))` over every `\d{4}`
match if any. -/
def RNCSource.make (source_name : String) : RNCSource :=
  let bare := String.mk (stripParens source_name.data)
  match findRange source_name.data with
  | some (bs, es) =>
    let b : ℚ := natOfDigitsL bs
    let e : ℚ := natOfDigitsL es
    { source_name := source_name, bare_name := bare,
      date_begin := b, date_middle := (b + e) / 2, date_end := e }
  | none =>
    match findAll4 source_name.data with
    | [] =>
      { source_name := source_name, bare_name := bare,
        date_begin := 0, date_middle := 0, date_end := 0 }
    | d :: ds =>
      let m : ℚ := natOfDigitsL (pyMin d ds)
      { source_name := source_name, bare_name := bare,
        date_begin := m, date_middle := m, date_end := m }

/-- Decidable side condition for the date-ordering invariant: the first year
range matched in the string, if any, is non-decreasing. -/
def rangeOk (s : String) : Bool :=
  match findRange s.data with
  | some (bs, es) => natOfDigitsL bs ≤ natOfDigitsL es
  | none => true

/-! ## trunc/rnc.py, the query classes

A query's state is its instance `__dict__`: the `base_url` attribute plus the
dynamically set parameter attributes, modelled as an insertion-ordered
association list from attribute name to value.  A parameter value is a Python
string or int. -/

/-- A Python parameter value: string or integer. -/
inductive PyVal where
  | s (v : String)
  | i (n : Int)
deriving DecidableEq

/-- A query object: `base_url` plus the parameter attributes of its
`__dict__`. -/
structure Query where
  base_url : String
  params : List (String × PyVal)
deriving DecidableEq

/-- Names for which `getattr(self, k, None)` is not `None` on a freshly
initialized query even though `k` is no parameter: the `base_url` instance
attribute and the class-level attributes of the query classes.  (Attribute
names inherited from `object` all start and end with a double underscore; the
theorems below only ever instantiate parameter names outside this list and not
starting with an underscore.) -/
def classAttrs : List String :=
  ["base_url", "DEFAULTS", "url", "parse_url", "documents_and_contexts",
   "__init__", "__doc__", "__module__"]

/-- First binding of a key in an association list, the lookup half of
`getattr`. -/
def lookupParam : List (String × PyVal) → String → Option PyVal
  | [], _ => none
  | (k', v') :: rest, k => if k' = k then some v' else lookupParam rest k

/-- `setattr`: overwrite the binding of an existing attribute, else append a
new one. -/
def setParam : List (String × PyVal) → String → PyVal → List (String × PyVal)
  | [], k, v => [(k, v)]
  | (k', v') :: rest, k, v =>
    if k' = k then (k, v) :: rest else (k', v') :: setParam rest k v

/-- The guarded assignment of `RNCQueryGeneric.__init__`:
`if getattr(self, k, None) is None: setattr(self, k, v)`. -/
def setIfAbsent (ps : List (String × PyVal)) (k : String) (v : PyVal) :
    List (String × PyVal) :=
  if (lookupParam ps k).isSome || classAttrs.contains k then ps else ps ++ [(k, v)]

/-- One pass of guarded assignments over a pair list, used first for the
keyword arguments and then for the class's `DEFAULTS` dictionary. -/
def applyPairs (ps : List (String × PyVal)) (pairs : List (String × PyVal)) :
    List (String × PyVal) :=
  pairs.foldl (fun acc kv => setIfAbsent acc kv.1 kv.2) ps

/-- `RNCQueryGeneric.__init__` on the keyword-argument path (no `url`): set
`base_url`, apply the keyword arguments, then fill from the class `DEFAULTS`.
-/
def construct (defaults : List (String × PyVal)) (baseUrl : String)
    (kwargs : List (String × PyVal)) : Query :=
  { base_url := baseUrl, params := applyPairs (applyPairs [] kwargs) defaults }

/-- `RNCQueryGeneric.DEFAULTS`. -/
def genericDefaults : List (String × PyVal) := [("mode", PyVal.s "")]

/-- `RNCQueryOld.DEFAULTS`. -/
def oldDefaults : List (String × PyVal) :=
  [("mode", PyVal.s "old_rus"), ("text1", PyVal.s "lexgramm"),
   ("doc_docid", PyVal.s "0|13|2|3|1|4|7|8|10|12|5|11|9|6"),
   ("parent1", PyVal.i 0), ("level1", PyVal.i 0), ("lexi1", PyVal.s ""),
   ("gramm1", PyVal.s ""), ("parent2", PyVal.i 0), ("level2", PyVal.i 0),
   ("min2", PyVal.i 1), ("max2", PyVal.i 1)]

/-- `RNCQueryMid.DEFAULTS`. -/
def midDefaults : List (String × PyVal) :=
  [("env", PyVal.s "alpha"), ("mode", PyVal.s "mid_rus"),
   ("text", PyVal.s "lexform"), ("sort", PyVal.s "gr_created"),
   ("lang", PyVal.s "ru"), ("mycorp", PyVal.s ""), ("mysent", PyVal.s ""),
   ("mysize", PyVal.s ""), ("mysentsize", PyVal.s ""),
   ("mydocsize", PyVal.s ""), ("dpp", PyVal.s ""), ("spp", PyVal.s ""),
   ("spd", PyVal.s ""), ("req", PyVal.s "")]

/-- `RNCQueryMain.DEFAULTS`.  Note the two keys `sem-mod1` and `sem-mod2`,
stored with a literal hyphen. -/
def mainDefaults : List (String × PyVal) :=
  [("mycorp", PyVal.s ""), ("mysent", PyVal.s ""), ("mysize", PyVal.s ""),
   ("dpp", PyVal.s ""), ("spp", PyVal.s ""), ("spd", PyVal.s ""),
   ("text", PyVal.s "lexgramm"), ("mode", PyVal.s "main"),
   ("sort", PyVal.s "gr_tagging"), ("lang", PyVal.s "en"),
   ("parent1", PyVal.i 0), ("level1", PyVal.i 0), ("lex1", PyVal.s ""),
   ("gramm1", PyVal.s ""), ("sem1", PyVal.s ""), ("flags1", PyVal.s ""),
   ("sem-mod1", PyVal.s ""), ("sem-mod2", PyVal.s ""),
   ("parent2", PyVal.i 0), ("level2", PyVal.i 0), ("min2", PyVal.i 1),
   ("max2", PyVal.i 1), ("lex2", PyVal.s ""), ("gramm2", PyVal.s ""),
   ("sem2", PyVal.s ""), ("flags2", PyVal.s "")]

/-- The `base_url` set by `RNCQueryGeneric.__init__` (and, redundantly again,
by `RNCQueryMain.__init__`). -/
def mainBaseUrl : String := "http://search.ruscorpora.ru/search.xml?"

/-- The `base_url` assigned by `RNCQueryOld.__init__` and
`RNCQueryMid.__init__` after the superclass call. -/
def betaBaseUrl : String := "http://search-beta.ruscorpora.ru/search.xml?"

/-- `RNCQueryGeneric(**kwargs)`. -/
def mkGeneric (kwargs : List (String × PyVal)) : Query :=
  construct genericDefaults mainBaseUrl kwargs

/-- `RNCQueryOld(**kwargs)`: the superclass sets the generic `base_url`, the
subclass then overwrites it with the beta address. -/
def mkOld (kwargs : List (String × PyVal)) : Query :=
  construct oldDefaults betaBaseUrl kwargs

/-- `RNCQueryMid(**kwargs)`. -/
def mkMid (kwargs : List (String × PyVal)) : Query :=
  construct midDefaults betaBaseUrl kwargs

/-- `RNCQueryMain(**kwargs)` with no `url` argument. -/
def mkMain (kwargs : List (String × PyVal)) : Query :=
  construct mainDefaults mainBaseUrl kwargs

/-- Decimal digits of a natural number, fuelled (the fuel `n + 1` always
suffices). -/
def natToCharsAux : Nat → Nat → List Char
  | 0, _ => []
  | fuel + 1, n =>
    if n < 10 then [Char.ofNat (48 + n)]
    else natToCharsAux fuel (n / 10) ++ [Char.ofNat (48 + n % 10)]

/-- Python's `str` on a natural number. -/
def natToString (n : Nat) : String := String.mk (natToCharsAux (n + 1) n)

/-- Python's `str` on an int. -/
def intToString : Int → String
  | Int.ofNat n => natToString n
  | Int.negSucc n => "-" ++ natToString (n + 1)

/-- How `"{}={}".format` renders a parameter value. -/
def renderVal : PyVal → String
  | PyVal.s v => v
  | PyVal.i n => intToString n

/-- Uppercase hexadecimal digit, as used by `urllib.quote`'s `%XX` escapes. -/
def toHexDigit (n : Nat) : Char :=
  if n < 10 then Char.ofNat (48 + n) else Char.ofNat (55 + n)

/-- `urllib.quote` on one byte: letters, digits and the four characters
underscore, dot, hyphen and slash pass through, everything else becomes a
`%XX` escape. -/
def quoteChar (c : Char) : List Char :=
  if isAsciiDigit c || (65 ≤ c.toNat && c.toNat ≤ 90)
      || (97 ≤ c.toNat && c.toNat ≤ 122)
      || c = '_' || c = '.' || c = '-' || c = '/' then [c]
  else ['%', toHexDigit (c.toNat % 256 / 16), toHexDigit (c.toNat % 16)]

/-- `urllib.quote` with its default safe characters, over the byte string.
For the `lex1` value the source first round-trips the bytes through
`to_unicode_or_bust(v).encode('utf-8')`, the identity on the byte strings
modelled here. -/
def pyQuote (s : String) : String := String.mk (s.data.map quoteChar).flatten

/-- `k.replace('_', '-')`, applied to every key by `url()`. -/
def hyphenKey (k : String) : String :=
  String.mk (k.data.map fun c => if c = '_' then '-' else c)

/-- How `url()` renders one value: the key `lex1` (after hyphen rewriting)
gets `urllib.quote(to_unicode_or_bust(v).encode('utf-8'))`, which raises for
an int value (`none` here); every other key gets the plain format rendering.
-/
def renderForKey (k' : String) (v : PyVal) : Option String :=
  if k' = "lex1" then
    match v with
    | PyVal.s sv => some (pyQuote sv)
    | PyVal.i _ => none
  else some (renderVal v)

/-- The accumulation loop of `RNCQueryGeneric.url`: for every parameter,
rewrite underscores in the key to hyphens, render the value (percent-encoded
for `lex1`), and append `key=value&`.  `base_url` is kept outside `params`, so
the source's `if k != 'base_url'` test never fires here. -/
def urlFold : String → List (String × PyVal) → Option String
  | addr, [] => some addr
  | addr, (k, v) :: rest =>
    match renderForKey (hyphenKey k) v with
    | none => none
    | some vs => urlFold (addr ++ hyphenKey k ++ "=" ++ vs ++ "&") rest

/-- `RNCQueryGeneric.url` from src/trunc/rnc.py lines 224-236. -/
def Query.url (q : Query) : Option String := urlFold q.base_url q.params

/-- Python's `split(sep, 1)` when it produces two halves: split at the first
occurrence of the separator; `none` when the separator is absent (the source
then fails with an IndexError on `url_halves[1]`). -/
def splitFirst (sep : Char) : List Char → Option (List Char × List Char)
  | [] => none
  | c :: cs =>
    if c = sep then some ([], cs)
    else (splitFirst sep cs).map (fun p => (c :: p.1, p.2))

/-- Python's unbounded `split(sep)`: always one more part than separators,
including empty parts. -/
def splitAll (sep : Char) (l : List Char) : List (List Char) :=
  match l with
  | [] => [[]]
  | c :: cs =>
    if c = sep then [] :: splitAll sep cs
    else match splitAll sep cs with
         | [] => [[c]]
         | p :: ps => (c :: p) :: ps

/-- Python's `str.isdigit`: non-empty and all digits. -/
def pyIsdigitL (l : List Char) : Bool := !l.isEmpty && l.all isAsciiDigit

/-- The parameter loop of `RNCQueryGeneric.parse_url`: each `&`-segment is
split on `=`; a segment with no `=` raises an IndexError on `kv[1]` (`none`
here).  Keys have hyphens rewritten to underscores.  A value containing `%` is
percent-decoded with the fetched page's detected encoding, modelled by the
injected `dec`; else an all-digit value becomes `as_integer(v)`.  Everything
except the page index `p` is stored with `setattr`.  (A key `base_url` would
be overwritten right after the loop by `url_halves[0] + '?'`, so not storing
it is equivalent.) -/
def parseSegs (dec : String → String) :
    List (List Char) → List (String × PyVal) → Option (List (String × PyVal))
  | [], ps => some ps
  | seg :: rest, ps =>
    match splitAll '=' seg with
    | k :: v :: _ =>
      let kStr := String.mk (k.map fun c => if c = '-' then '_' else c)
      let pv : PyVal :=
        if v.contains '%' then PyVal.s (dec (String.mk v))
        else if pyIsdigitL v then PyVal.i (as_integer (String.mk v))
        else PyVal.s (String.mk v)
      parseSegs dec rest
        (if kStr = "p" ∨ kStr = "base_url" then ps else setParam ps kStr pv)
    | _ => none

/-- `RNCQueryGeneric.parse_url` from src/trunc/rnc.py lines 191-221, on a
freshly initialized instance (the `RNCQueryGeneric(url=...)` path, whose
`__dict__` holds only `base_url`).  The detected character encoding of the
fetched page enters only through the injected percent-decoder `dec`, which
stands for `to_unicode_or_bust(urllib.unquote(v).decode(enc))`. -/
def parse_url (dec : String → String) (url : String) : Option Query :=
  match splitFirst '?' url.data with
  | none => none
  | some (pre, rest) =>
    match parseSegs dec (splitAll '&' rest) [] with
    | none => none
    | some ps => some { base_url := String.mk pre ++ "?", params := ps }

/-- The shape property of a well-formed base address: it ends with the
character `?`. -/
def endsInQmark (s : String) : Prop := ∃ t : String, s = t ++ "?"

/-- Concatenation of `key=value&` segments, the shape of everything `url()`
appends after the base address. -/
def segsConcat : List (String × String) → String
  | [] => ""
  | kv :: rest => kv.1 ++ "=" ++ kv.2 ++ "&" ++ segsConcat rest

/-! ## trunc/web.py, Webpage.page (the retry loop) -/

/-- Observable events of one run of `Webpage.page`: the politeness sleep
`time.sleep(self.delay)` at the top of each loop iteration, an attempt to open
the address (carrying the value of the `attempt` counter), and the backoff
sleep `time.sleep(fibonacci_number(attempt))` after a failure. -/
inductive FetchEvent where
  | sleepDelay
  | attemptFetch (attempt : Nat)
  | sleepBackoff (seconds : Nat)
deriving DecidableEq

/-- Outcome of running the loop for a bounded number of iterations: either
some attempt succeeded and its content was returned, or the loop is still
running (with the attempt counter it would use next). -/
inductive RunOutcome where
  | returned (content : String) (events : List FetchEvent)
  | running (nextAttempt : Nat) (events : List FetchEvent)
deriving DecidableEq

/-- The body of `Webpage.page`'s `while page_not_loaded` loop, unrolled
`fuel` times from attempt counter `a`.  `fetch` is the external
`self.opener.open`: `some content` on success, `none` for an `IOError`.  Each
iteration sleeps the politeness delay, attempts the fetch, and on failure
prints, sleeps `fibonacci_number(attempt)` seconds and increments the
counter. -/
def pageRun (fetch : Nat → Option String) : Nat → Nat → RunOutcome
  | 0, a => RunOutcome.running a []
  | fuel + 1, a =>
    match fetch a with
    | some content =>
      RunOutcome.returned content [FetchEvent.sleepDelay, FetchEvent.attemptFetch a]
    | none =>
      let block := [FetchEvent.sleepDelay, FetchEvent.attemptFetch a,
                    FetchEvent.sleepBackoff (fibonacci_number a)]
      match pageRun fetch fuel (a + 1) with
      | RunOutcome.returned c tr => RunOutcome.returned c (block ++ tr)
      | RunOutcome.running a' tr => RunOutcome.running a' (block ++ tr)

/-- `Webpage.page` from src/trunc/web.py lines 55-77: the loop starts with
`attempt = 1`. -/
def Webpage.page (fetch : Nat → Option String) (fuel : Nat) : RunOutcome :=
  pageRun fetch fuel 1

/-- The events produced by `n` consecutive failed attempts starting at attempt
counter `a`: politeness sleep, attempt, backoff of `fibonacci_number` of the
attempt counter, repeated with the counter incremented each time. -/
def failTraceFrom : Nat → Nat → List FetchEvent
  | _, 0 => []
  | a, n + 1 =>
    [FetchEvent.sleepDelay, FetchEvent.attemptFetch a,
     FetchEvent.sleepBackoff (fibonacci_number a)] ++ failTraceFrom (a + 1) n

/-! ## Concrete inputs used by witnesses and counterexamples -/

/-- The citation from the `parse_dates` doctest with a date range. -/
def kioCitation : String := "И. Э. Кио. Иллюзии без иллюзий (1995-1999)"

/-- The citation from the `parse_dates` doctest with a single date. -/
def raspCitation : String := "В. Г. Распутин. Новая профессия (1998)"

/-- A citation whose year range is written in descending order. -/
def descRangeCitation : String := "1999-1995"

/-- A fetch collaborator whose first attempt raises an IOError and whose
second attempt succeeds. -/
def fetchFailOnce : Nat → Option String := fun n => if n = 1 then none else some "page"

/-- A fetch collaborator that always succeeds. -/
def fetchOk : Nat → Option String := fun _ => some "page"

/-- A sample percent-decoder standing for the external
`unquote`-then-`decode` collaborator. -/
def decId : String → String := fun s => s

/-- The query that `parse_url` reconstructs from the sample address
`http://x?a=1`. -/
def sampleParsed : Query := { base_url := "http://x?", params := [("a", PyVal.i 1)] }

/-!  ######################################################################
     Theorems
     ###################################################################### -/

/-- The iteration `a, b = b, a + b` advances a window of two consecutive
reference Fibonacci values. -/
theorem fibonacci_loop_spec :
    ∀ (k m : Nat), (fibonacci_loop k (fibSpec (m + 1), fibSpec (m + 2))).1 = fibSpec (m + 1 + k) := by
  intro k
  induction k with
  | zero => intro m; rfl
  | succ k ih =>
    intro m
    have h3 : fibSpec (m + 1) + fibSpec (m + 2) = fibSpec (m + 3) := by
      rw [show fibSpec (m + 3) = fibSpec (m + 2) + fibSpec (m + 1) from by simp [fibSpec]]
      exact Nat.add_comm _ _
    show (fibonacci_loop k (fibSpec (m + 2), fibSpec (m + 1) + fibSpec (m + 2))).1 = _
    rw [h3]
    have h := ih (m + 1)
    rw [show m + 1 + 1 + k = m + 1 + (k + 1) from by omega] at h
    exact h

/-- C5: for every n ≥ 1, the iterative `fibonacci_number` from
src/trunc/util.py equals the reference recurrence `fib(1) = 1`, `fib(2) = 1`,
`fib(n) = fib(n-1) + fib(n-2)`. -/
theorem c5_fibonacci_number_eq_fibSpec : ∀ n : Nat, 1 ≤ n → fibonacci_number n = fibSpec n := by
  intro n hn
  obtain ⟨m, rfl⟩ : ∃ m, n = m + 1 := ⟨n - 1, by omega⟩
  show (fibonacci_loop (m + 1 - 1) (1, 1)).1 = fibSpec (m + 1)
  have h := fibonacci_loop_spec m 0
  have h1 : fibSpec (0 + 1) = 1 := by norm_num [fibSpec]
  have h2 : fibSpec (0 + 2) = 1 := by norm_num [fibSpec]
  rw [h1, h2] at h
  rw [show m + 1 - 1 = m from by omega, h, show 0 + 1 + m = m + 1 from by omega]

/-- Witness for C5: at n = 6 the hypothesis 1 ≤ 6 holds, the theorem applies,
and the loop indeed returns the sequence values 1, 1, 2, 3, 5, 8 for
n = 1..6. -/
theorem c5_fibonacci_number_eq_fibSpec_witness :
    (1 ≤ 6 ∧ fibonacci_number 6 = fibSpec 6) ∧
      fibonacci_number 1 = 1 ∧ fibonacci_number 2 = 1 ∧ fibonacci_number 3 = 2 ∧
      fibonacci_number 4 = 3 ∧ fibonacci_number 5 = 5 ∧ fibonacci_number 6 = 8 :=
  ⟨⟨by decide, c5_fibonacci_number_eq_fibSpec 6 (by decide)⟩,
   by decide, by decide, by decide, by decide, by decide, by decide⟩

/-- C2: evaluation of the divergence between src/trunc/util.py and the strict
contract.  On the digit-free input "abc", the utility in src (`as_integer`)
silently returns 0, while the contract asserted by the claim, modelled from
the spec as `to_integer` (the test suite's `ints_from_string`, absent from
src), fails with the explicit "no digits present" error. -/
theorem c2_as_integer_silently_returns_zero :
    as_integer "abc" = 0 ∧ digits_only "abc" = "" ∧
      to_integer "abc" = Except.error "no digits present" :=
  ⟨by decide, by decide, rfl⟩

/-- A string none of whose characters is a digit is rejected by the model of
Python's `int()`. -/
theorem pyIntOpt_eq_none_of_no_digits (s : String)
    (h : ∀ c ∈ s.data, isAsciiDigit c = false) : pyIntOpt s = none := by
  unfold pyIntOpt
  have hsub : ∀ c ∈ ((s.data.dropWhile isPySpace).reverse.dropWhile isPySpace).reverse,
      isAsciiDigit c = false := by
    intro c hc
    apply h
    have h1 : c ∈ (s.data.dropWhile isPySpace).reverse.dropWhile isPySpace := by
      simpa using hc
    have h2 : c ∈ (s.data.dropWhile isPySpace).reverse :=
      (List.dropWhile_sublist _).subset h1
    have h3 : c ∈ s.data.dropWhile isPySpace := by simpa using h2
    exact (List.dropWhile_sublist _).subset h3
  have hcontra : ∀ l : List Char, (∀ x ∈ l, isAsciiDigit x = false) →
      ¬(l ≠ [] ∧ l.all isAsciiDigit = true) := by
    rintro l hl ⟨hne, hall⟩
    cases l with
    | nil => exact hne rfl
    | cons y ys =>
      have hy := hl y (List.mem_cons_self _ _)
      rw [List.all_cons, hy] at hall
      simp at hall
  cases hm : ((s.data.dropWhile isPySpace).reverse.dropWhile isPySpace).reverse with
  | nil => simp
  | cons c rest =>
    have hmem : ∀ x ∈ c :: rest, isAsciiDigit x = false := by
      intro x hx
      exact hsub x (hm ▸ hx)
    simp only []
    rw [if_neg]
    by_cases h1 : c = '-'
    · rw [if_pos h1]
      exact hcontra rest (fun x hx => hmem x (List.mem_cons_of_mem _ hx))
    · rw [if_neg h1]
      by_cases h2 : c = '+'
      · rw [if_pos h2]
        exact hcontra rest (fun x hx => hmem x (List.mem_cons_of_mem _ hx))
      · rw [if_neg h2]
        exact hcontra (c :: rest) hmem

/-- C9: `as_integer` is total: it returns the value of the
delimiter-stripped string whenever the model of Python's `int()` accepts it as
an integer literal, and 0 in every other case; in particular it returns 0
whenever no digit at all remains after stripping. -/
theorem c9_as_integer_total (s : String) (delims : List Char) :
    (∀ i : Int, pyIntOpt (removeDelims s delims) = some i → as_integer s delims = i) ∧
    (pyIntOpt (removeDelims s delims) = none → as_integer s delims = 0) ∧
    ((∀ c ∈ (removeDelims s delims).data, isAsciiDigit c = false) →
      as_integer s delims = 0) := by
  refine ⟨?_, ?_, ?_⟩
  · intro i h
    unfold as_integer
    rw [h]
  · intro h
    unfold as_integer
    rw [h]
  · intro h
    unfold as_integer
    rw [pyIntOpt_eq_none_of_no_digits _ h]

/-- Witness for C9: on "1 4" the stripped string "14" is a valid literal and
`as_integer` returns 14 (the site's space-separated thousands format). -/
theorem c9_as_integer_total_witness : as_integer "1 4" [' '] = 14 :=
  (c9_as_integer_total "1 4" [' ']).1 14 (by decide)

/-- Every match produced by the `\d{4}` scan is a list of four digit
characters. -/
theorem findAll4Aux_elems :
    ∀ (fuel : Nat) (l m : List Char), m ∈ findAll4Aux fuel l →
      m.length = 4 ∧ ∀ c ∈ m, isAsciiDigit c = true := by
  intro fuel
  induction fuel with
  | zero => intro l m hm; simp [findAll4Aux] at hm
  | succ fuel ih =>
    intro l m hm
    rcases l with _ | ⟨c1, _ | ⟨c2, _ | ⟨c3, _ | ⟨c4, rest⟩⟩⟩⟩ <;>
      simp only [findAll4Aux] at hm
    · simp at hm
    · simp at hm
    · simp at hm
    · simp at hm
    · split at hm
      · next hdig =>
        simp only [Bool.and_eq_true] at hdig
        rcases List.mem_cons.mp hm with h | h
        · subst h
          refine ⟨rfl, ?_⟩
          intro c hc
          simp only [List.mem_cons, List.not_mem_nil, or_false] at hc
          rcases hc with rfl | rfl | rfl | rfl
          · exact hdig.1.1.1
          · exact hdig.1.1.2
          · exact hdig.1.2
          · exact hdig.2
        · exact ih rest m h
      · exact ih _ m hm

/-- Every match produced by `findAll4` is a list of four digit characters. -/
theorem findAll4_elems (l m : List Char) (hm : m ∈ findAll4 l) :
    m.length = 4 ∧ ∀ c ∈ m, isAsciiDigit c = true :=
  findAll4Aux_elems l.length l m hm

/-- A digit character's value lies between 0 and 9. -/
theorem digitVal_le_nine (c : Char) (h : isAsciiDigit c = true) : digitVal c ≤ 9 := by
  simp only [isAsciiDigit, Bool.and_eq_true, decide_eq_true_eq] at h
  unfold digitVal
  omega

/-- The value of a digit string is below the power of ten of its length. -/
theorem natOfDigitsL_lt_pow (l : List Char) (h : ∀ c ∈ l, isAsciiDigit c = true) :
    natOfDigitsL l < 10 ^ l.length := by
  induction l with
  | nil => simp [natOfDigitsL]
  | cons c cs ih =>
    have hd := digitVal_le_nine c (h c (List.mem_cons_self _ _))
    have hv := ih (fun x hx => h x (List.mem_cons_of_mem _ hx))
    show digitVal c * 10 ^ cs.length + natOfDigitsL cs < 10 ^ (cs.length + 1)
    have h9 : digitVal c * 10 ^ cs.length ≤ 9 * 10 ^ cs.length :=
      Nat.mul_le_mul_right _ hd
    rw [pow_succ]
    omega

/-- On equal-length digit strings, Python's lexicographic string order agrees
with the numeric order of the values: this is why `float(min(dates))` over the
four-character `\d{4}` matches is the earliest year. -/
theorem pyStrLt_iff_val_lt :
    ∀ (a b : List Char), a.length = b.length →
      (∀ c ∈ a, isAsciiDigit c = true) → (∀ c ∈ b, isAsciiDigit c = true) →
      (pyStrLt a b = true ↔ natOfDigitsL a < natOfDigitsL b) := by
  intro a
  induction a with
  | nil =>
    intro b hlen _ _
    have : b = [] := List.eq_nil_of_length_eq_zero hlen.symm
    subst this
    simp [pyStrLt, natOfDigitsL]
  | cons x xs ih =>
    intro b hlen ha hb
    cases b with
    | nil => simp at hlen
    | cons y ys =>
      have hn : xs.length = ys.length := by simpa using hlen
      have hx := ha x (List.mem_cons_self _ _)
      have hy := hb y (List.mem_cons_self _ _)
      have hxs : ∀ c ∈ xs, isAsciiDigit c = true :=
        fun c hc => ha c (List.mem_cons_of_mem _ hc)
      have hys : ∀ c ∈ ys, isAsciiDigit c = true :=
        fun c hc => hb c (List.mem_cons_of_mem _ hc)
      have hvx : natOfDigitsL xs < 10 ^ xs.length := natOfDigitsL_lt_pow xs hxs
      have hvy : natOfDigitsL ys < 10 ^ xs.length := by
        rw [hn]; exact natOfDigitsL_lt_pow ys hys
      simp only [isAsciiDigit, Bool.and_eq_true, decide_eq_true_eq] at hx hy
      show (if x.toNat < y.toNat then true
            else if y.toNat < x.toNat then false else pyStrLt xs ys) = true ↔
        digitVal x * 10 ^ xs.length + natOfDigitsL xs <
          digitVal y * 10 ^ ys.length + natOfDigitsL ys
      rw [← hn]
      by_cases h1 : x.toNat < y.toNat
      · rw [if_pos h1]
        have hdv : digitVal x + 1 ≤ digitVal y := by unfold digitVal; omega
        have h4 : (digitVal x + 1) * 10 ^ xs.length ≤ digitVal y * 10 ^ xs.length :=
          Nat.mul_le_mul_right _ hdv
        rw [add_one_mul] at h4
        simp only [true_iff]
        omega
      · rw [if_neg h1]
        by_cases h2 : y.toNat < x.toNat
        · rw [if_pos h2]
          have hdv : digitVal y + 1 ≤ digitVal x := by unfold digitVal; omega
          have h4 : (digitVal y + 1) * 10 ^ xs.length ≤ digitVal x * 10 ^ xs.length :=
            Nat.mul_le_mul_right _ hdv
          rw [add_one_mul] at h4
          simp only [Bool.false_eq_true, false_iff, not_lt]
          omega
        · rw [if_neg h2]
          have hxy : digitVal x = digitVal y := by unfold digitVal; omega
          rw [hxy]
          rw [ih ys hn hxs hys]
          omega

/-- Specification of `pyMin` on lists of four-digit matches: the result is one
of the elements and its numeric value is minimal. -/
theorem pyMin_spec :
    ∀ (ds : List (List Char)) (d : List Char),
      (d.length = 4 ∧ ∀ c ∈ d, isAsciiDigit c = true) →
      (∀ m ∈ ds, m.length = 4 ∧ ∀ c ∈ m, isAsciiDigit c = true) →
      pyMin d ds ∈ d :: ds ∧
        ∀ x ∈ d :: ds, natOfDigitsL (pyMin d ds) ≤ natOfDigitsL x := by
  intro ds
  induction ds with
  | nil =>
    intro d _ _
    constructor
    · exact List.mem_cons_self _ _
    · intro x hx
      simp only [List.mem_cons, List.not_mem_nil, or_false] at hx
      subst hx
      exact Nat.le_refl _
  | cons m ms ih =>
    intro d hd hms
    have hm := hms m (List.mem_cons_self _ _)
    have hmrest : ∀ x ∈ ms, x.length = 4 ∧ ∀ c ∈ x, isAsciiDigit c = true :=
      fun x hx => hms x (List.mem_cons_of_mem _ hx)
    have hstep : pyMin d (m :: ms) = pyMin (if pyStrLt m d then m else d) ms := rfl
    have hiff := pyStrLt_iff_val_lt m d (hm.1.trans hd.1.symm) hm.2 hd.2
    have hd' : ((if pyStrLt m d then m else d).length = 4 ∧
        ∀ c ∈ (if pyStrLt m d then m else d), isAsciiDigit c = true) := by
      split
      · exact hm
      · exact hd
    have hled : natOfDigitsL (if pyStrLt m d then m else d) ≤ natOfDigitsL d := by
      split
      · next h => exact Nat.le_of_lt (hiff.mp h)
      · exact Nat.le_refl _
    have hlem : natOfDigitsL (if pyStrLt m d then m else d) ≤ natOfDigitsL m := by
      split
      · exact Nat.le_refl _
      · next h =>
        have := (not_congr hiff).mp (by simpa using h)
        omega
    obtain ⟨hmem, hmin⟩ := ih (if pyStrLt m d then m else d) hd' hmrest
    constructor
    · rw [hstep]
      rcases List.mem_cons.mp hmem with h | h
      · rw [h]
        split
        · exact List.mem_cons_of_mem _ (List.mem_cons_self _ _)
        · exact List.mem_cons_self _ _
      · exact List.mem_cons_of_mem _ (List.mem_cons_of_mem _ h)
    · intro x hx
      rw [hstep]
      have hself : natOfDigitsL (pyMin (if pyStrLt m d then m else d) ms) ≤
          natOfDigitsL (if pyStrLt m d then m else d) :=
        hmin _ (List.mem_cons_self _ _)
      rcases List.mem_cons.mp hx with h | h
      · subst h
        exact hself.trans hled
      · rcases List.mem_cons.mp h with h' | h'
        · subst h'
          exact hself.trans hlem
        · exact hmin x (List.mem_cons_of_mem _ h')

/-- Field values of `RNCSource.make` in the year-range case. -/
theorem RNCSource.make_range (s : String) (bs es : List Char)
    (h : findRange s.data = some (bs, es)) :
    (RNCSource.make s).date_begin = natOfDigitsL bs ∧
    (RNCSource.make s).date_middle =
      ((natOfDigitsL bs : ℚ) + (natOfDigitsL es : ℚ)) / 2 ∧
    (RNCSource.make s).date_end = natOfDigitsL es := by
  unfold RNCSource.make
  split
  · next bs' es' heq =>
    rw [h] at heq
    injection heq with heq'
    injection heq' with h1 h2
    subst h1
    subst h2
    exact ⟨rfl, rfl, rfl⟩
  · next heq => rw [h] at heq; exact absurd heq (by simp)

/-- Field values of `RNCSource.make` when there is no range but at least one
bare four-digit match. -/
theorem RNCSource.make_min (s : String) (d : List Char) (ds : List (List Char))
    (h1 : findRange s.data = none) (h2 : findAll4 s.data = d :: ds) :
    (RNCSource.make s).date_begin = natOfDigitsL (pyMin d ds) ∧
    (RNCSource.make s).date_middle = natOfDigitsL (pyMin d ds) ∧
    (RNCSource.make s).date_end = natOfDigitsL (pyMin d ds) := by
  unfold RNCSource.make
  split
  · next heq => rw [h1] at heq; exact absurd heq (by simp)
  · next =>
    split
    · next heq => rw [h2] at heq; exact absurd heq (by simp)
    · next d' ds' heq =>
      rw [h2] at heq
      injection heq with ha hb
      subst ha
      subst hb
      exact ⟨rfl, rfl, rfl⟩

/-- Field values of `RNCSource.make` when the citation holds no date at all. -/
theorem RNCSource.make_nodate (s : String)
    (h1 : findRange s.data = none) (h2 : findAll4 s.data = []) :
    (RNCSource.make s).date_begin = 0 ∧
    (RNCSource.make s).date_middle = 0 ∧
    (RNCSource.make s).date_end = 0 := by
  unfold RNCSource.make
  split
  · next heq => rw [h1] at heq; exact absurd heq (by simp)
  · next =>
    split
    · exact ⟨rfl, rfl, rfl⟩
    · next heq => rw [h2] at heq; exact absurd heq (by simp)

/-- C3: for every raw citation string, the date fields of the constructed
`RNCSource` follow the three-way case split of `parse_dates`: a first
`\d{4}-\d{4}` match sets begin and end to its two numbers and middle to their
arithmetic mean; otherwise, when `\d{4}` matches exist, all three fields equal
the numeric minimum of the matched numbers; otherwise all three are 0.0. -/
theorem c3_parse_dates_cases (s : String) :
    (∀ bs es : List Char, findRange s.data = some (bs, es) →
      (RNCSource.make s).date_begin = natOfDigitsL bs ∧
      (RNCSource.make s).date_end = natOfDigitsL es ∧
      (RNCSource.make s).date_middle =
        ((RNCSource.make s).date_begin + (RNCSource.make s).date_end) / 2) ∧
    (findRange s.data = none → ∀ (d : List Char) (ds : List (List Char)),
      findAll4 s.data = d :: ds →
      (RNCSource.make s).date_begin ∈
        (d :: ds).map (fun m => (natOfDigitsL m : ℚ)) ∧
      (∀ x ∈ (d :: ds).map (fun m => (natOfDigitsL m : ℚ)),
        (RNCSource.make s).date_begin ≤ x) ∧
      (RNCSource.make s).date_middle = (RNCSource.make s).date_begin ∧
      (RNCSource.make s).date_end = (RNCSource.make s).date_begin) ∧
    (findRange s.data = none → findAll4 s.data = [] →
      (RNCSource.make s).date_begin = 0 ∧
      (RNCSource.make s).date_middle = 0 ∧
      (RNCSource.make s).date_end = 0) := by
  refine ⟨?_, ?_, ?_⟩
  · intro bs es h
    obtain ⟨h1, h2, h3⟩ := RNCSource.make_range s bs es h
    exact ⟨h1, h3, by rw [h1, h2, h3]⟩
  · intro h0 d ds h
    obtain ⟨h1, h2, h3⟩ := RNCSource.make_min s d ds h0 h
    have hd : d.length = 4 ∧ ∀ c ∈ d, isAsciiDigit c = true :=
      findAll4_elems s.data d (h ▸ List.mem_cons_self _ _)
    have hds : ∀ m ∈ ds, m.length = 4 ∧ ∀ c ∈ m, isAsciiDigit c = true :=
      fun m hm => findAll4_elems s.data m (h ▸ List.mem_cons_of_mem _ hm)
    obtain ⟨hmem, hmin⟩ := pyMin_spec ds d hd hds
    refine ⟨?_, ?_, by rw [h2, h1], by rw [h3, h1]⟩
    · rw [h1]
      exact List.mem_map_of_mem _ hmem
    · intro x hx
      obtain ⟨m, hm, rfl⟩ := List.mem_map.mp hx
      rw [h1]
      exact_mod_cast hmin m hm
  · intro h0 h
    exact RNCSource.make_nodate s h0 h

/-- Witness for C3: on the single-date doctest citation, the range pattern
does not match, the `\d{4}` scan yields exactly the match "1998", and the
theorem instantiates to minimality over that one value. -/
theorem c3_parse_dates_cases_witness :
    (RNCSource.make raspCitation).date_begin ∈
      (["1998".data] : List (List Char)).map (fun m => (natOfDigitsL m : ℚ)) ∧
    (∀ x ∈ (["1998".data] : List (List Char)).map (fun m => (natOfDigitsL m : ℚ)),
      (RNCSource.make raspCitation).date_begin ≤ x) ∧
    (RNCSource.make raspCitation).date_middle =
      (RNCSource.make raspCitation).date_begin ∧
    (RNCSource.make raspCitation).date_end =
      (RNCSource.make raspCitation).date_begin :=
  (c3_parse_dates_cases raspCitation).2.1 (by decide) "1998".data [] (by decide)

/-- Counterexample for C4: the descending range "1999-1995" yields
`date_begin = 1999`, `date_middle = 1997`, `date_end = 1995`, violating the
claimed ordering. -/
theorem c4_counterexample :
    ¬ ((RNCSource.make descRangeCitation).date_begin ≤
          (RNCSource.make descRangeCitation).date_middle ∧
       (RNCSource.make descRangeCitation).date_middle ≤
          (RNCSource.make descRangeCitation).date_end) := by
  obtain ⟨h1, h2, h3⟩ :=
    RNCSource.make_range descRangeCitation "1999".data "1995".data (by decide)
  rw [h1, h2, h3]
  rw [show natOfDigitsL "1999".data = 1999 from by decide,
      show natOfDigitsL "1995".data = 1995 from by decide]
  norm_num

/-- C4 as amended: for every citation string whose first year-range match (if
any) is non-decreasing, `date_begin ≤ date_middle ≤ date_end` holds after
construction. -/
theorem c4_dates_ordered (s : String) (h : rangeOk s = true) :
    (RNCSource.make s).date_begin ≤ (RNCSource.make s).date_middle ∧
    (RNCSource.make s).date_middle ≤ (RNCSource.make s).date_end := by
  cases hr : findRange s.data with
  | some p =>
    obtain ⟨bs, es⟩ := p
    obtain ⟨h1, h2, h3⟩ := RNCSource.make_range s bs es hr
    unfold rangeOk at h
    rw [hr] at h
    simp only [decide_eq_true_eq] at h
    have hle : (natOfDigitsL bs : ℚ) ≤ (natOfDigitsL es : ℚ) := by exact_mod_cast h
    rw [h1, h2, h3]
    constructor <;> linarith
  | none =>
    cases ha : findAll4 s.data with
    | nil =>
      obtain ⟨h1, h2, h3⟩ := RNCSource.make_nodate s hr ha
      rw [h1, h2, h3]
      exact ⟨le_refl _, le_refl _⟩
    | cons d ds =>
      obtain ⟨h1, h2, h3⟩ := RNCSource.make_min s d ds hr ha
      rw [h1, h2, h3]
      exact ⟨le_refl _, le_refl _⟩

/-- Witness for C4: the single-date doctest citation has no range match, so
`rangeOk` holds and the amended ordering theorem applies. -/
theorem c4_dates_ordered_witness :
    (RNCSource.make raspCitation).date_begin ≤
      (RNCSource.make raspCitation).date_middle ∧
    (RNCSource.make raspCitation).date_middle ≤
      (RNCSource.make raspCitation).date_end :=
  c4_dates_ordered raspCitation (by decide)

/-- Unfolding equation: looking up in an empty `__dict__`. -/
theorem lookupParam_nil (k : String) : lookupParam [] k = none := rfl

/-- Unfolding equation: looking up in a non-empty `__dict__`. -/
theorem lookupParam_cons (k' : String) (v' : PyVal) (rest : List (String × PyVal))
    (k : String) :
    lookupParam ((k', v') :: rest) k = if k' = k then some v' else lookupParam rest k := rfl

/-- Appending bindings on the right of a `__dict__` never changes an existing
attribute: `lookupParam` returns the first binding. -/
theorem lookupParam_append_left (ps l : List (String × PyVal)) (k : String) (v : PyVal)
    (h : lookupParam ps k = some v) : lookupParam (ps ++ l) k = some v := by
  induction ps with
  | nil => simp [lookupParam_nil] at h
  | cons p rest ih =>
    obtain ⟨k', v'⟩ := p
    rw [lookupParam_cons] at h
    rw [List.cons_append, lookupParam_cons]
    split at h
    · next heq => rw [if_pos heq]; exact h
    · next heq => rw [if_neg heq]; exact ih h

/-- Looking up an absent attribute passes through to the appended bindings. -/
theorem lookupParam_append_right (ps l : List (String × PyVal)) (k : String)
    (h : lookupParam ps k = none) : lookupParam (ps ++ l) k = lookupParam l k := by
  induction ps with
  | nil => simp
  | cons p rest ih =>
    obtain ⟨k', v'⟩ := p
    rw [lookupParam_cons] at h
    rw [List.cons_append, lookupParam_cons]
    split at h
    · exact absurd h (by simp)
    · next heq => rw [if_neg heq]; exact ih h

/-- A guarded assignment never changes an attribute that is already set. -/
theorem lookupParam_setIfAbsent_preserves (ps : List (String × PyVal))
    (k k' : String) (v v' : PyVal) (h : lookupParam ps k = some v) :
    lookupParam (setIfAbsent ps k' v') k = some v := by
  unfold setIfAbsent
  split
  · exact h
  · exact lookupParam_append_left ps _ k v h

/-- A guarded assignment under a different key leaves a lookup unchanged. -/
theorem lookupParam_setIfAbsent_ne (ps : List (String × PyVal))
    (k k' : String) (v' : PyVal) (hne : k ≠ k') :
    lookupParam (setIfAbsent ps k' v') k = lookupParam ps k := by
  unfold setIfAbsent
  split
  · rfl
  · cases h : lookupParam ps k with
    | some v => rw [lookupParam_append_left ps _ k v h]
    | none =>
      rw [lookupParam_append_right ps _ k h, lookupParam_cons,
        if_neg (fun hh => hne hh.symm), lookupParam_nil]

/-- A whole pass of guarded assignments never changes an attribute that is
already set. -/
theorem applyPairs_preserves (pairs : List (String × PyVal)) :
    ∀ (ps : List (String × PyVal)) (k : String) (v : PyVal),
      lookupParam ps k = some v → lookupParam (applyPairs ps pairs) k = some v := by
  induction pairs with
  | nil => intro ps k v h; exact h
  | cons p rest ih =>
    intro ps k v h
    show lookupParam (applyPairs (setIfAbsent ps p.1 p.2) rest) k = some v
    exact ih _ k v (lookupParam_setIfAbsent_preserves ps k p.1 v p.2 h)

/-- A pass of guarded assignments introduces no keys beyond those of its pair
list. -/
theorem applyPairs_none (pairs : List (String × PyVal)) :
    ∀ (ps : List (String × PyVal)) (k : String),
      lookupParam pairs k = none → lookupParam ps k = none →
      lookupParam (applyPairs ps pairs) k = none := by
  induction pairs with
  | nil => intro ps k _ h; exact h
  | cons p rest ih =>
    intro ps k hp h
    obtain ⟨k1, v1⟩ := p
    rw [lookupParam_cons] at hp
    split at hp
    · exact absurd hp (by simp)
    · next hne =>
      show lookupParam (applyPairs (setIfAbsent ps k1 v1) rest) k = none
      refine ih _ k hp ?_
      rw [lookupParam_setIfAbsent_ne ps k k1 v1 (fun hh => hne hh.symm)]
      exact h

/-- An explicitly supplied keyword argument ends up bound to its supplied
value, provided the keyword names are distinct (as Python guarantees), the
name does not collide with a class attribute, and it is not already bound. -/
theorem applyPairs_kwargs (pairs : List (String × PyVal)) :
    ∀ (ps : List (String × PyVal)) (k : String) (v : PyVal),
      (k, v) ∈ pairs → (pairs.map Prod.fst).Nodup →
      classAttrs.contains k = false → lookupParam ps k = none →
      lookupParam (applyPairs ps pairs) k = some v := by
  induction pairs with
  | nil => intro ps k v hm; simp at hm
  | cons p rest ih =>
    intro ps k v hm hnd hc hps
    obtain ⟨k1, v1⟩ := p
    rcases List.mem_cons.mp hm with heq | hmem
    · injection heq with hk hv
      subst hk
      subst hv
      show lookupParam (applyPairs (setIfAbsent ps k v) rest) k = some v
      apply applyPairs_preserves
      unfold setIfAbsent
      rw [if_neg (by simp [hps]; simpa using hc)]
      rw [lookupParam_append_right ps _ k hps, lookupParam_cons, if_pos rfl]
    · have hk1 : k ≠ k1 := by
        intro hh
        subst hh
        have : k ∈ rest.map Prod.fst := List.mem_map_of_mem _ hmem
        simp only [List.map_cons, List.nodup_cons] at hnd
        exact hnd.1 this
      show lookupParam (applyPairs (setIfAbsent ps k1 v1) rest) k = some v
      refine ih _ k v hmem ?_ hc ?_
      · simp only [List.map_cons, List.nodup_cons] at hnd
        exact hnd.2
      · rw [lookupParam_setIfAbsent_ne ps k k1 v1 hk1]
        exact hps

/-- A pass of guarded assignments fills in the first binding of its pair list
for a key that is absent and collision-free. -/
theorem applyPairs_fills (pairs : List (String × PyVal)) :
    ∀ (ps : List (String × PyVal)) (k : String) (v : PyVal),
      lookupParam pairs k = some v →
      classAttrs.contains k = false → lookupParam ps k = none →
      lookupParam (applyPairs ps pairs) k = some v := by
  induction pairs with
  | nil => intro ps k v h; simp [lookupParam] at h
  | cons p rest ih =>
    intro ps k v h hc hps
    obtain ⟨k1, v1⟩ := p
    rw [lookupParam_cons] at h
    split at h
    · next heq =>
      injection h with hv
      subst hv
      subst heq
      show lookupParam (applyPairs (setIfAbsent ps k1 v1) rest) k1 = some v1
      apply applyPairs_preserves
      unfold setIfAbsent
      rw [if_neg (by simp [hps]; simpa using hc)]
      rw [lookupParam_append_right ps _ k1 hps, lookupParam_cons, if_pos rfl]
    · next hne =>
      show lookupParam (applyPairs (setIfAbsent ps k1 v1) rest) k = some v
      refine ih _ k v h hc ?_
      rw [lookupParam_setIfAbsent_ne ps k k1 v1 (fun hh => hne hh.symm)]
      exact hps

/-- C6: for every subcorpus default table and every keyword-argument list with
distinct parameter names (none colliding with a class attribute), an
explicitly supplied parameter keeps its supplied value in the constructed
query, and a default fills in only when its key was not supplied
explicitly. -/
theorem c6_explicit_params_win (defaults : List (String × PyVal)) (baseUrl : String)
    (kwargs : List (String × PyVal)) (hnd : (kwargs.map Prod.fst).Nodup) :
    (∀ (k : String) (v : PyVal), (k, v) ∈ kwargs → classAttrs.contains k = false →
      lookupParam (construct defaults baseUrl kwargs).params k = some v) ∧
    (∀ (k : String) (v : PyVal), lookupParam kwargs k = none →
      classAttrs.contains k = false → lookupParam defaults k = some v →
      lookupParam (construct defaults baseUrl kwargs).params k = some v) := by
  constructor
  · intro k v hm hc
    show lookupParam (applyPairs (applyPairs [] kwargs) defaults) k = some v
    apply applyPairs_preserves
    exact applyPairs_kwargs kwargs [] k v hm hnd hc rfl
  · intro k v hnone hc hdef
    show lookupParam (applyPairs (applyPairs [] kwargs) defaults) k = some v
    refine applyPairs_fills defaults _ k v hdef hc ?_
    exact applyPairs_none kwargs [] k hnone rfl

/-- Witness for C6: a Main query constructed with the explicit override
`lang="ru"` binds `lang` to "ru", even though the Main default table binds
`lang` to "en". -/
theorem c6_explicit_params_win_witness :
    classAttrs.contains "lang" = false ∧
    lookupParam mainDefaults "lang" = some (PyVal.s "en") ∧
    lookupParam (construct mainDefaults mainBaseUrl
      [("lang", PyVal.s "ru")]).params "lang" = some (PyVal.s "ru") :=
  ⟨by decide, by decide,
   (c6_explicit_params_win mainDefaults mainBaseUrl [("lang", PyVal.s "ru")]
      (by decide)).1 "lang" (PyVal.s "ru") (by decide) (by decide)⟩

/-- The loop of `Webpage.page`, run from attempt counter `a`: when the `n`
attempts `a .. a+n-1` fail and attempt `a+n` succeeds with content `c`, the
run returns `c` after the failure blocks and the final successful
delay-and-attempt. -/
theorem pageRun_spec :
    ∀ (n : Nat) (fetch : Nat → Option String) (a fuel : Nat) (c : String),
      (∀ k, a ≤ k → k < a + n → fetch k = none) → fetch (a + n) = some c →
      n < fuel →
      pageRun fetch fuel a =
        RunOutcome.returned c
          (failTraceFrom a n ++
            [FetchEvent.sleepDelay, FetchEvent.attemptFetch (a + n)]) := by
  intro n
  induction n with
  | zero =>
    intro fetch a fuel c hfail hsucc hfuel
    obtain ⟨f, rfl⟩ : ∃ f, fuel = f + 1 := ⟨fuel - 1, by omega⟩
    rw [show a + 0 = a from rfl] at hsucc
    unfold pageRun
    rw [hsucc]
    simp [failTraceFrom]
  | succ n ih =>
    intro fetch a fuel c hfail hsucc hfuel
    obtain ⟨f, rfl⟩ : ∃ f, fuel = f + 1 := ⟨fuel - 1, by omega⟩
    have ha : fetch a = none := hfail a (Nat.le_refl _) (by omega)
    have ih' := ih fetch (a + 1) f c
      (fun k h1 h2 => hfail k (by omega) (by omega))
      (by rw [show a + 1 + n = a + (n + 1) from by omega]; exact hsucc)
      (by omega)
    unfold pageRun
    rw [ha]
    simp only [ih']
    rw [show a + 1 + n = a + (n + 1) from by omega]
    simp [failTraceFrom]

/-- The loop of `Webpage.page` when every attempt fails: after any number of
iterations it is still running, with the attempt counter advanced once per
iteration. -/
theorem pageRun_allFail :
    ∀ (fuel a : Nat) (fetch : Nat → Option String),
      (∀ k, a ≤ k → fetch k = none) →
      pageRun fetch fuel a = RunOutcome.running (a + fuel) (failTraceFrom a fuel) := by
  intro fuel
  induction fuel with
  | zero => intro a fetch _; simp [pageRun, failTraceFrom]
  | succ fuel ih =>
    intro a fetch hfail
    have ha : fetch a = none := hfail a (Nat.le_refl _)
    have ih' := ih (a + 1) fetch (fun k hk => hfail k (by omega))
    unfold pageRun
    rw [ha]
    simp only [ih']
    rw [show a + 1 + fuel = a + (fuel + 1) from by omega]
    simp [failTraceFrom]

/-- Counterexample for C7: when the first attempt fails and the second
succeeds, the run's event trace contains a politeness-delay sleep between the
backoff sleep and the retry attempt, contradicting the claim's "without
sleeping the politeness delay again before the retry" (the claimed trace would
omit it). -/
theorem c7_counterexample :
    Webpage.page fetchFailOnce 2 =
      RunOutcome.returned "page"
        [FetchEvent.sleepDelay, FetchEvent.attemptFetch 1, FetchEvent.sleepBackoff 1,
         FetchEvent.sleepDelay, FetchEvent.attemptFetch 2] ∧
    Webpage.page fetchFailOnce 2 ≠
      RunOutcome.returned "page"
        [FetchEvent.sleepDelay, FetchEvent.attemptFetch 1, FetchEvent.sleepBackoff 1,
         FetchEvent.attemptFetch 2] :=
  ⟨by decide, by decide⟩

/-- C7 as amended: the attempt counter starts at 1; each failed attempt k is
followed by a backoff sleep of exactly `fibonacci_number k` seconds, the
counter is incremented by 1, and the politeness delay is slept again before
the retry; the failure is never surfaced (the run returns only the eventual
success's content). -/
theorem c7_backoff_then_delay_retry (fetch : Nat → Option String) (n fuel : Nat)
    (c : String) (hfail : ∀ k, 1 ≤ k → k ≤ n → fetch k = none)
    (hsucc : fetch (n + 1) = some c) (hfuel : n < fuel) :
    Webpage.page fetch fuel =
      RunOutcome.returned c
        (failTraceFrom 1 n ++
          [FetchEvent.sleepDelay, FetchEvent.attemptFetch (n + 1)]) := by
  unfold Webpage.page
  have h := pageRun_spec n fetch 1 fuel c
    (fun k h1 h2 => hfail k h1 (by omega))
    (by rw [show 1 + n = n + 1 from by omega]; exact hsucc) hfuel
  rw [h, show 1 + n = n + 1 from by omega]

/-- Witness for C7 (amended): one failure then success; the trace is the
failure block for attempt 1 followed by a fresh politeness delay and the
successful attempt 2. -/
theorem c7_backoff_then_delay_retry_witness :
    Webpage.page fetchFailOnce 3 =
      RunOutcome.returned "page"
        (failTraceFrom 1 1 ++
          [FetchEvent.sleepDelay, FetchEvent.attemptFetch 2]) :=
  c7_backoff_then_delay_retry fetchFailOnce 1 3 "page"
    (fun k h1 h2 => by
      have hk : k = 1 := by omega
      subst hk
      rfl)
    (by rfl) (by omega)

/-- C8: the loop terminates exactly when some attempt succeeds.  First
conjunct: if the n-th attempt is the first to succeed, the run returns that
attempt's content with attempts 1..n only.  Second conjunct: if every attempt
fails, the loop is still running after every bound on the number of
iterations (there is no upper bound on attempts). -/
theorem c8_terminates_iff_success :
    (∀ (fetch : Nat → Option String) (n fuel : Nat) (c : String), 1 ≤ n →
      (∀ k, 1 ≤ k → k < n → fetch k = none) → fetch n = some c → n ≤ fuel →
      Webpage.page fetch fuel =
        RunOutcome.returned c
          (failTraceFrom 1 (n - 1) ++
            [FetchEvent.sleepDelay, FetchEvent.attemptFetch n])) ∧
    (∀ fetch : Nat → Option String, (∀ k, 1 ≤ k → fetch k = none) →
      ∀ fuel, Webpage.page fetch fuel =
        RunOutcome.running (fuel + 1) (failTraceFrom 1 fuel)) := by
  constructor
  · intro fetch n fuel c hn hfail hsucc hfuel
    unfold Webpage.page
    have h := pageRun_spec (n - 1) fetch 1 fuel c
      (fun k h1 h2 => hfail k h1 (by omega))
      (by rw [show 1 + (n - 1) = n from by omega]; exact hsucc) (by omega)
    rw [h, show 1 + (n - 1) = n from by omega]
  · intro fetch hfail fuel
    unfold Webpage.page
    rw [pageRun_allFail fuel 1 fetch (fun k hk => hfail k hk),
      show 1 + fuel = fuel + 1 from by omega]

/-- Witness for C8: with a fetch that succeeds immediately, the loop returns
after the single attempt 1. -/
theorem c8_terminates_iff_success_witness :
    Webpage.page fetchOk 1 =
      RunOutcome.returned "page"
        (failTraceFrom 1 0 ++
          [FetchEvent.sleepDelay, FetchEvent.attemptFetch 1]) :=
  c8_terminates_iff_success.1 fetchOk 1 1 "page" (by decide)
    (fun k h1 h2 => by omega) (by rfl) (by decide)

/-- Shape of the accumulation loop of `url()`: whatever it returns is the
starting address followed by zero or more `key=value&` segments. -/
theorem urlFold_shape :
    ∀ (ps : List (String × PyVal)) (addr u : String),
      urlFold addr ps = some u →
      ∃ segs : List (String × String), u = addr ++ segsConcat segs := by
  intro ps
  induction ps with
  | nil =>
    intro addr u h
    refine ⟨[], ?_⟩
    simp only [urlFold, Option.some.injEq] at h
    subst h
    simp [segsConcat]
  | cons p rest ih =>
    intro addr u h
    obtain ⟨k, v⟩ := p
    unfold urlFold at h
    cases hv : renderForKey (hyphenKey k) v with
    | none => rw [hv] at h; simp at h
    | some vs =>
      rw [hv] at h
      simp only [] at h
      obtain ⟨segs, hsegs⟩ := ih _ u h
      refine ⟨(hyphenKey k, vs) :: segs, ?_⟩
      rw [hsegs]
      simp only [segsConcat]
      simp [String.append_assoc]

/-- C10: after every construction path (generic constructor with keyword
parameters, the Old/Mid/Main subclass constructors, and reconstruction via
`parse_url`), the `base_url` ends in the character `?`; and every string
`url()` returns is the `base_url` followed by zero or more `key=value&`
segments. -/
theorem c10_base_url_ends_in_qmark :
    (∀ kwargs : List (String × PyVal),
      endsInQmark (mkGeneric kwargs).base_url ∧ endsInQmark (mkOld kwargs).base_url ∧
      endsInQmark (mkMid kwargs).base_url ∧ endsInQmark (mkMain kwargs).base_url) ∧
    (∀ (dec : String → String) (u : String) (q : Query),
      parse_url dec u = some q → endsInQmark q.base_url) ∧
    (∀ (q : Query) (u : String), Query.url q = some u →
      ∃ segs : List (String × String), u = q.base_url ++ segsConcat segs) := by
  refine ⟨?_, ?_, ?_⟩
  · intro kwargs
    have h1 : mainBaseUrl = "http://search.ruscorpora.ru/search.xml" ++ "?" := by decide
    have h2 : betaBaseUrl = "http://search-beta.ruscorpora.ru/search.xml" ++ "?" := by decide
    exact ⟨⟨_, h1⟩, ⟨_, h2⟩, ⟨_, h2⟩, ⟨_, h1⟩⟩
  · intro dec u q h
    unfold parse_url at h
    split at h
    · exact absurd h (by simp)
    · next pre rest heq =>
      split at h
      · exact absurd h (by simp)
      · next ps hps =>
        injection h with h'
        subst h'
        exact ⟨String.mk pre, rfl⟩
  · intro q u h
    exact urlFold_shape q.params q.base_url u h

/-- Witness for C10: reconstructing a query from the sample address
`http://x?a=1` succeeds and yields a `base_url` ending in `?`. -/
theorem c10_base_url_ends_in_qmark_witness : endsInQmark sampleParsed.base_url :=
  c10_base_url_ends_in_qmark.2.1 decId "http://x?a=1" sampleParsed (by decide)

set_option maxRecDepth 8000 in
/-- C1: evaluation of the code-bug.  A Main query built from the explicit
parameter `lang="ru"` serializes to a URL (so `url()` succeeds), and
re-parsing that very string fails for every percent-decoder: `url()` ends
every parameter with `&`, so the query string splits into one trailing empty
segment, whose `kv[1]` access raises an IndexError inside `parse_url` before
any Query is produced. -/
theorem c1_parse_url_fails_on_url_output :
    ∀ dec : String → String,
      ((mkMain [("lang", PyVal.s "ru")]).url).isSome = true ∧
      Option.bind ((mkMain [("lang", PyVal.s "ru")]).url) (parse_url dec) = none :=
  fun _ => ⟨rfl, rfl⟩
